import Mathlib

/-!
Verification of the HTML base64 image extractor (`extract_images.py`).

The script scans an HTML document with the regex
`data:image/(png|jpeg|jpg|gif|webp|svg\+xml);base64,([A-Za-z0-9+/=]+)`,
decodes each matched payload with `base64.b64decode`, writes the decoded
bytes to `os.path.join(output_dir, f"image_NNNN.ext")` and substitutes a
relative reference `./output_dir/filename` for the match; a decode failure
leaves the matched text verbatim and is reported as a diagnostic.

The development below shallowly embeds the script: documents are `List Char`,
decoded images are `List Nat` (bytes), the run state records the match
counter, the log of written files and the number of failure diagnostics.
-/

set_option autoImplicit false

namespace ExtractImages

/-- A byte is modelled as a natural number (always `< 256` where produced). -/
abbrev Byte := Nat

/-! ### Base64 decoding (`base64.b64decode`, i.e. `binascii.a2b_base64`, non-strict)

CPython's non-strict `a2b_base64` walks over the characters keeping a quad
position, the pending bits of the current quad and a count of pending pads:
a data character emits a byte (from quad position 1, 2 or 3), `=` finishes
the input once enough of a quad and of padding has been seen, other
characters are discarded, and the decode fails when input ends in the middle
of a quad (one extra data character, or missing padding). -/

/-- Value of a base64 alphabet character, `none` for characters outside
the data alphabet (`=` included). -/
def b64CharVal (c : Char) : Option Nat :=
  if 'A' ≤ c ∧ c ≤ 'Z' then some (c.toNat - 65)
  else if 'a' ≤ c ∧ c ≤ 'z' then some (c.toNat - 97 + 26)
  else if '0' ≤ c ∧ c ≤ '9' then some (c.toNat - 48 + 52)
  else if c = '+' then some 62
  else if c = '/' then some 63
  else none

/-- The character class `[A-Za-z0-9+/=]` of the regex's payload group. -/
def isB64 (c : Char) : Bool :=
  (b64CharVal c).isSome || c = '='

/-- One pass of CPython's non-strict `a2b_base64` loop.
`quadPos` is the position inside the current 4-character quad,
`leftchar` the pending bits, `pads` the count of padding characters seen
since the last data character, `acc` the output bytes in reverse. -/
def a2b : List Char → Nat → Nat → Nat → List Byte → Option (List Byte)
  | [], quadPos, _, _, acc =>
      if quadPos = 0 then some acc.reverse else none
  | c :: rest, quadPos, leftchar, pads, acc =>
      if c = '=' then
        if quadPos ≥ 2 then
          if quadPos + (pads + 1) ≥ 4 then some acc.reverse
          else a2b rest quadPos leftchar (pads + 1) acc
        else a2b rest quadPos leftchar pads acc
      else
        match b64CharVal c with
        | none => a2b rest quadPos leftchar pads acc
        | some v =>
          match quadPos with
          | 0 => a2b rest 1 v 0 acc
          | 1 => a2b rest 2 (v % 16) 0 ((leftchar * 4 + v / 16) :: acc)
          | 2 => a2b rest 3 (v % 4) 0 ((leftchar * 16 + v / 4) :: acc)
          | _ => a2b rest 0 0 0 ((leftchar * 64 + v) :: acc)

/-- `base64.b64decode` on a string, `none` on `binascii.Error`. -/
def b64decode (s : List Char) : Option (List Byte) :=
  a2b s 0 0 0 []

/-! ### The regex matcher

`dropLit p s` consumes the literal `p` at the head of `s`; `tryAlt`
attempts one alternative of the subtype group followed by `;base64,` and a
nonempty greedy run of payload characters; `tryAlts` backtracks through the
alternatives in the regex's order; `matchAt` matches the whole pattern at
the start of `s`. -/

/-- Consume a literal prefix: `some rest` when `s = p ++ rest`. -/
def dropLit : List Char → List Char → Option (List Char)
  | [], s => some s
  | _ :: _, [] => none
  | p :: ps, c :: cs => if c = p then dropLit ps cs else none

/-- The recognized subtypes, in the order of the regex alternation. -/
def subtypeList : List (List Char) :=
  ["png".data, "jpeg".data, "jpg".data, "gif".data, "webp".data, "svg+xml".data]

/-- A successful match: captured subtype (group 1), captured payload
(group 2) and the text after the match. -/
structure MatchInfo where
  sub : List Char
  payload : List Char
  rest : List Char
  deriving DecidableEq, Repr

/-- Try one alternative: the subtype literal, then `;base64,`, then a
maximal nonempty run of `[A-Za-z0-9+/=]`. -/
def tryAlt (r : List Char) (s : List Char) : Option MatchInfo :=
  match dropLit r s with
  | none => none
  | some s1 =>
    match dropLit ";base64,".data s1 with
    | none => none
    | some s2 =>
      let payload := s2.takeWhile isB64
      if payload.isEmpty then none
      else some ⟨r, payload, s2.dropWhile isB64⟩

/-- Backtrack through the alternatives in order. -/
def tryAlts : List (List Char) → List Char → Option MatchInfo
  | [], _ => none
  | r :: rs, s =>
    match tryAlt r s with
    | some mi => some mi
    | none => tryAlts rs s

/-- Match the full pattern at the start of `s`. -/
def matchAt (s : List Char) : Option MatchInfo :=
  match dropLit "data:image/".data s with
  | none => none
  | some s1 => tryAlts subtypeList s1

/-- `match.group(0)`: the text of the whole match. -/
def matchText (mi : MatchInfo) : List Char :=
  "data:image/".data ++ mi.sub ++ ";base64,".data ++ mi.payload

/-- Whether the pattern matches anywhere in `s` (at any start position). -/
def hasMatch : List Char → Bool
  | [] => false
  | c :: cs => (matchAt (c :: cs)).isSome || hasMatch cs

/-- The log of every match of one `re.sub` scan in left-to-right order,
together with the sequence number the callback assigns to it (the counter
increments on every match, before the decode attempt).  Structural
recursion on a fuel bound; a match consumes at least one character, so
`s.length` fuel suffices. -/
def matchLogAux : Nat → List Char → Nat → List (Nat × List Char × List Char)
  | 0, _, _ => []
  | fuel + 1, s, k =>
    match matchAt s with
    | some mi => (k + 1, mi.sub, mi.payload) :: matchLogAux fuel mi.rest (k + 1)
    | none =>
      match s with
      | [] => []
      | _ :: cs => matchLogAux fuel cs k

/-- The matches of a whole scan with their assigned sequence numbers,
starting from a fresh counter. -/
def matchLog (s : List Char) : List (Nat × List Char × List Char) :=
  matchLogAux s.length s 0

/-! ### Filenames and output paths -/

/-- A decimal digit character, as produced by Python's `d` format. -/
def digitChar : Nat → Char
  | 0 => '0' | 1 => '1' | 2 => '2' | 3 => '3' | 4 => '4'
  | 5 => '5' | 6 => '6' | 7 => '7' | 8 => '8' | 9 => '9'
  | _ => '*'

/-- Decimal digits, most significant first, by structural recursion on a
fuel bound (enough fuel never runs out). -/
def natDigitsAux : Nat → Nat → List Char
  | 0, _ => []
  | fuel + 1, n =>
    if n < 10 then [digitChar n]
    else natDigitsAux fuel (n / 10) ++ [digitChar (n % 10)]

/-- The decimal digits of `n`, most significant first. -/
def natDigits (n : Nat) : List Char :=
  natDigitsAux (n + 1) n

/-- Python's `f"{n:04d}"`: the decimal digits of `n`, left padded with
zeros to at least four characters. -/
def pad4 (n : Nat) : List Char :=
  List.replicate (4 - (natDigits n).length) '0' ++ natDigits n

/-- The numeric value of a digit character (inverse of `digitChar`,
used to reason about the zero-padded sequence numbers). -/
def digitVal (c : Char) : Nat := c.toNat - 48

/-- The number a digit string denotes in decimal. -/
def digitsVal (ds : List Char) : Nat :=
  ds.foldl (fun a c => a * 10 + digitVal c) 0

/-- The file extension chosen for a captured subtype
(`svg+xml` becomes `svg`, every other recognized subtype is kept). -/
def extensionOf (sub : List Char) : List Char :=
  if sub = "svg+xml".data then "svg".data else sub

/-- `f"image_{image_count:04d}.{extension}"`. -/
def mkFilename (n : Nat) (ext : List Char) : List Char :=
  "image_".data ++ pad4 n ++ '.' :: ext

/-- `os.path.join(a, b)` for POSIX paths (two components). -/
def ospJoin (a b : List Char) : List Char :=
  if b.head? = some '/' then b
  else if a = [] ∨ a.getLast? = some '/' then a ++ b
  else a ++ '/' :: b

/-! ### `pathlib` name, stem and suffix (for `process_html_file`)

`process_html_file` derives the default output name as
`input_path.stem + "_optimized" + input_path.suffix`.  `PurePosixPath`
splits the path on `/`, drops empty and `.` components, and takes the last
component as `name`; `stem`/`suffix` split `name` at its last `.` provided
that dot is neither the first nor the last character of the name. -/

/-- Split a path on `/` (keeping empty groups). -/
def splitSlash : List Char → List (List Char)
  | [] => [[]]
  | c :: cs =>
    if c = '/' then [] :: splitSlash cs
    else
      match splitSlash cs with
      | [] => [[c]]
      | g :: gs => (c :: g) :: gs

/-- The path's components: slash-groups that are neither empty nor `.`. -/
def pathParts (p : List Char) : List (List Char) :=
  (splitSlash p).filter (fun g => !g.isEmpty && g != ['.'])

/-- `PurePath.name`: the last component, or empty. -/
def pathName (p : List Char) : List Char :=
  ((pathParts p).getLast?).getD []

/-- Index of the last `.` of a list, if any (`str.rfind('.')`). -/
def lastDotIdx : List Char → Option Nat
  | [] => none
  | c :: cs =>
    match lastDotIdx cs with
    | some i => some (i + 1)
    | none => if c = '.' then some 0 else none

/-- `PurePath.stem`: the name up to its last dot, when that dot is neither
first nor last in the name. -/
def pathStem (p : List Char) : List Char :=
  match lastDotIdx (pathName p) with
  | some i =>
    if 0 < i ∧ i + 1 < (pathName p).length then (pathName p).take i
    else pathName p
  | none => pathName p

/-- `PurePath.suffix`: the name from its last dot, under the same proviso. -/
def pathSuffix (p : List Char) : List Char :=
  match lastDotIdx (pathName p) with
  | some i =>
    if 0 < i ∧ i + 1 < (pathName p).length then (pathName p).drop i
    else []
  | none => []

/-- The `output_file is None` branch of `process_html_file`:
`input_path.stem + "_optimized" + input_path.suffix`. -/
def default_output_file (input_file : List Char) : List Char :=
  pathStem input_file ++ "_optimized".data ++ pathSuffix input_file

/-! ### Decomposition of a run into pieces (for the frame property)

A run of `re.sub` splits the document into preserved stretches and
successfully replaced match spans; a `Piece` records one of them. -/

/-- One piece of the document: `keep t` is text the pass preserves
byte-for-byte (unmatched text, or a match whose decode failed), and
`swap o r` is a successfully decoded match span `o` replaced by `r`. -/
inductive Piece where
  | keep : List Char → Piece
  | swap : List Char → List Char → Piece
  deriving Repr, DecidableEq

/-- The text a piece had in the input document. -/
def Piece.orig : Piece → List Char
  | .keep t => t
  | .swap o _ => o

/-- The text a piece carries in the output document. -/
def Piece.out : Piece → List Char
  | .keep t => t
  | .swap _ r => r

/-! ### The extraction state and the substitution callback -/

/-- The run-scoped state of one `extract_base64_images` call: the match
counter `image_count`, the log of files written (path and decoded bytes, in
write order) and the number of per-match failure diagnostics printed. -/
structure ExtractState where
  imageCount : Nat
  files : List (List Char × List Byte)
  failCount : Nat
  deriving Repr, DecidableEq

/-- The substitution callback `replace_base64`: increment the counter,
build the filename from the counter and the subtype's extension, decode the
payload; on success log the written file and return the relative reference
`f"./output_dir/filename"`, on failure report a diagnostic and return
`match.group(0)` unchanged. -/
def replace_base64 (output_dir : List Char) (sub payload : List Char)
    (st : ExtractState) : List Char × ExtractState :=
  let count := st.imageCount + 1
  let filename := mkFilename count (extensionOf sub)
  let filepath := ospJoin output_dir filename
  match b64decode payload with
  | some image_data =>
      ("./".data ++ output_dir ++ '/' :: filename,
       { imageCount := count, files := st.files ++ [(filepath, image_data)],
         failCount := st.failCount })
  | none =>
      ("data:image/".data ++ sub ++ ";base64,".data ++ payload,
       { imageCount := count, files := st.files,
         failCount := st.failCount + 1 })

/-! ### Basic facts about the matcher

(The length bound on the text after a match justifies the termination of
the scanner defined below.) -/

theorem dropLit_eq_some {p s r : List Char} (h : dropLit p s = some r) :
    s = p ++ r := by
  induction p generalizing s with
  | nil => simpa [dropLit] using h
  | cons a ps ih =>
    cases s with
    | nil => simp [dropLit] at h
    | cons c cs =>
      by_cases hc : c = a
      · subst hc
        simpa using ih (by simpa [dropLit] using h)
      · simp [dropLit, hc] at h

theorem dropLit_of_append (p r : List Char) : dropLit p (p ++ r) = some r := by
  induction p with
  | nil => simp [dropLit]
  | cons a ps ih => simp [dropLit, ih]

theorem dropLit_eq_none {p s : List Char} (h : dropLit p s = none)
    (r : List Char) : s ≠ p ++ r := by
  intro hs
  rw [hs, dropLit_of_append] at h
  exact Option.noConfusion h

theorem takeWhile_append_of_all {p : Char → Bool} {xs ys : List Char}
    (hall : ∀ c ∈ xs, p c = true)
    (hstop : ∀ c, ys.head? = some c → p c = false) :
    (xs ++ ys).takeWhile p = xs ∧ (xs ++ ys).dropWhile p = ys := by
  induction xs with
  | nil =>
    cases ys with
    | nil => simp
    | cons y ys' =>
      have := hstop y rfl
      simp [List.takeWhile, List.dropWhile, this]
  | cons a xs' ih =>
    have ha : p a = true := hall a (by simp)
    have := ih (fun c hc => hall c (by simp [hc]))
    simp [List.takeWhile, List.dropWhile, ha, this.1, this.2]

theorem tryAlt_some_spec {r s : List Char} {mi : MatchInfo}
    (h : tryAlt r s = some mi) :
    mi.sub = r ∧ s = r ++ ";base64,".data ++ mi.payload ++ mi.rest ∧
      mi.payload ≠ [] ∧ (∀ c ∈ mi.payload, isB64 c = true) ∧
      (∀ c, mi.rest.head? = some c → isB64 c = false) := by
  cases h1 : dropLit r s with
  | none => simp [tryAlt, h1] at h
  | some s1 =>
    cases h2 : dropLit ";base64,".data s1 with
    | none => simp [tryAlt, h1, h2] at h
    | some s2 =>
      simp only [tryAlt, h1, h2] at h
      by_cases hp : s2.takeWhile isB64 = []
      · simp [hp] at h
      · rw [if_neg (by simpa [List.isEmpty_iff] using hp)] at h
        cases h
        refine ⟨rfl, ?_, hp, ?_, ?_⟩
        · have e1 := dropLit_eq_some h1
          have e2 := dropLit_eq_some h2
          rw [e1, e2, ← List.takeWhile_append_dropWhile (p := isB64) (l := s2)]
          simp
        · intro c hc
          exact List.mem_takeWhile_imp hc
        · intro c hc
          have := List.head?_dropWhile_not isB64 s2
          cases hd : List.dropWhile isB64 s2 with
          | nil => simp [hd] at hc
          | cons d ds =>
            rw [hd] at hc this
            simp at hc this
            simpa [hc] using this

theorem tryAlts_eq_none_iff (L : List (List Char)) (s : List Char) :
    tryAlts L s = none ↔ ∀ r ∈ L, tryAlt r s = none := by
  induction L with
  | nil => simp [tryAlts]
  | cons a L' ih =>
    simp only [tryAlts]
    cases h : tryAlt a s with
    | some mi => simp [h]
    | none => simp [h, ih]

theorem tryAlts_some_spec {L : List (List Char)} {s : List Char} {mi : MatchInfo}
    (h : tryAlts L s = some mi) : mi.sub ∈ L ∧ tryAlt mi.sub s = some mi := by
  induction L with
  | nil => simp [tryAlts] at h
  | cons a L' ih =>
    simp only [tryAlts] at h
    cases ha : tryAlt a s with
    | some mj =>
      rw [ha] at h
      cases h
      have := (tryAlt_some_spec ha).1
      exact ⟨by simp [this], by rwa [this]⟩
    | none =>
      rw [ha] at h
      have := ih h
      exact ⟨by simp [this.1], this.2⟩

theorem matchAt_some_spec {s : List Char} {mi : MatchInfo}
    (h : matchAt s = some mi) :
    mi.sub ∈ subtypeList ∧ s = matchText mi ++ mi.rest ∧ mi.payload ≠ [] ∧
      (∀ c ∈ mi.payload, isB64 c = true) ∧
      (∀ c, mi.rest.head? = some c → isB64 c = false) := by
  cases h0 : dropLit "data:image/".data s with
  | none => simp [matchAt, h0] at h
  | some s1 =>
    simp only [matchAt, h0] at h
    obtain ⟨hmem, halt⟩ := tryAlts_some_spec h
    obtain ⟨-, he, hne, hall, hstop⟩ := tryAlt_some_spec halt
    refine ⟨hmem, ?_, hne, hall, hstop⟩
    rw [dropLit_eq_some h0, he, matchText]
    simp

theorem matchAt_rest_length {s : List Char} {mi : MatchInfo}
    (h : matchAt s = some mi) : mi.rest.length < s.length := by
  obtain ⟨-, he, hne, -, -⟩ := matchAt_some_spec h
  rw [he, matchText]
  have : 0 < mi.payload.length := List.length_pos.mpr hne
  simp [List.length_append]
  omega

/-! ### The extraction pass -/

/-- `re.sub(pattern, replace_base64, html_content)` with the callback's
state threaded explicitly: at each position try the pattern; on a match
emit the callback's text and continue after the match, otherwise emit the
character and move one position right. -/
def scanSub (output_dir : List Char) (s : List Char) (st : ExtractState) :
    List Char × ExtractState :=
  match h : matchAt s with
  | some mi =>
      let p := replace_base64 output_dir mi.sub mi.payload st
      let q := scanSub output_dir mi.rest p.2
      (p.1 ++ q.1, q.2)
  | none =>
      match s with
      | [] => ([], st)
      | c :: cs =>
          let q := scanSub output_dir cs st
          (c :: q.1, q.2)
  termination_by s.length
  decreasing_by
  · exact matchAt_rest_length h
  · simp

/-- `extract_base64_images`: one whole pass over the document, starting
from a fresh state.  Returns the rewritten document and the final state
(the reported total is the final `imageCount`). -/
def extract_base64_images (html_content : List Char) (output_dir : List Char) :
    List Char × ExtractState :=
  scanSub output_dir html_content ⟨0, [], 0⟩

/-! ### Unfolding equations of the scanner -/

theorem scanSub_nil (output_dir : List Char) (st : ExtractState) :
    scanSub output_dir [] st = ([], st) := by
  rw [scanSub]
  rfl

theorem scanSub_pos (output_dir : List Char) {s : List Char} {mi : MatchInfo}
    (h : matchAt s = some mi) (st : ExtractState) :
    scanSub output_dir s st =
      ((replace_base64 output_dir mi.sub mi.payload st).1 ++
         (scanSub output_dir mi.rest
           (replace_base64 output_dir mi.sub mi.payload st).2).1,
       (scanSub output_dir mi.rest
         (replace_base64 output_dir mi.sub mi.payload st).2).2) := by
  rw [scanSub]
  split
  · rename_i mi' h'
    rw [h] at h'
    cases h'
    rfl
  · rename_i h'
    rw [h] at h'
    exact Option.noConfusion h'

theorem scanSub_neg (output_dir : List Char) {c : Char} {cs : List Char}
    (h : matchAt (c :: cs) = none) (st : ExtractState) :
    scanSub output_dir (c :: cs) st =
      ((c :: (scanSub output_dir cs st).1), (scanSub output_dir cs st).2) := by
  rw [scanSub]
  split
  · rename_i mi' h'
    rw [h] at h'
    exact Option.noConfusion h'
  · rfl

/-! ### Pass-through on documents without a match -/

theorem scanSub_of_no_match (output_dir : List Char) :
    ∀ (s : List Char) (st : ExtractState), hasMatch s = false →
      scanSub output_dir s st = (s, st) := by
  intro s
  induction s with
  | nil => intro st _; exact scanSub_nil output_dir st
  | cons c cs ih =>
    intro st h
    simp only [hasMatch, Bool.or_eq_false_iff] at h
    have hm : matchAt (c :: cs) = none := by
      cases hm : matchAt (c :: cs) with
      | none => rfl
      | some mi => rw [hm] at h; simp at h
    rw [scanSub_neg output_dir hm, ih st h.2]

/-- Claim C6: a document in which the pattern matches nowhere is returned
unchanged, with zero files written (and zero matches counted). -/
theorem extract_no_match_id (html_content output_dir : List Char)
    (h : hasMatch html_content = false) :
    extract_base64_images html_content output_dir =
      (html_content, ⟨0, [], 0⟩) :=
  scanSub_of_no_match output_dir html_content ⟨0, [], 0⟩ h

/-- Witness for C6 at a concrete match-free document. -/
theorem extract_no_match_id_witness :
    hasMatch "<p>hello, world</p>".data = false ∧
    extract_base64_images "<p>hello, world</p>".data "images".data =
      ("<p>hello, world</p>".data, ⟨0, [], 0⟩) :=
  ⟨by decide, extract_no_match_id "<p>hello, world</p>".data "images".data (by decide)⟩

/-! ### The relation between the counter, the file log and the failures -/

theorem scanSub_state_inv (output_dir : List Char) :
    ∀ (n : Nat) (s : List Char) (st : ExtractState), s.length ≤ n →
      (scanSub output_dir s st).2.imageCount + st.files.length + st.failCount =
        st.imageCount + (scanSub output_dir s st).2.files.length +
          (scanSub output_dir s st).2.failCount := by
  intro n
  induction n with
  | zero =>
    intro s st hlen
    obtain rfl : s = [] := List.length_eq_zero.mp (Nat.le_zero.mp hlen)
    rw [scanSub_nil]
  | succ m ih =>
    intro s st hlen
    cases h : matchAt s with
    | some mi =>
      rw [scanSub_pos output_dir h]
      have hlt := matchAt_rest_length h
      have hrec := ih mi.rest (replace_base64 output_dir mi.sub mi.payload st).2
        (by omega)
      cases hd : b64decode mi.payload with
      | some bs =>
        simp only [replace_base64, hd, List.length_append, List.length_cons,
          List.length_nil] at hrec ⊢
        omega
      | none =>
        simp only [replace_base64, hd, List.length_append, List.length_cons,
          List.length_nil] at hrec ⊢
        omega
    | none =>
      cases s with
      | nil => rw [scanSub_nil]
      | cons c cs =>
        rw [scanSub_neg output_dir h]
        exact ih cs st (by simpa using Nat.le_of_succ_le_succ hlen)

/-- Amendment of claim C4: the count reported at the end of a run equals
the total number of matches encountered — the successful extractions (the
files written) plus the failed ones — because the counter increments before
the decode attempt.  It is not the number of successful extractions alone. -/
theorem extract_count_reports_all_matches (html_content output_dir : List Char) :
    (extract_base64_images html_content output_dir).2.imageCount =
      (extract_base64_images html_content output_dir).2.files.length +
        (extract_base64_images html_content output_dir).2.failCount := by
  have := scanSub_state_inv output_dir html_content.length html_content
    ⟨0, [], 0⟩ (Nat.le_refl _)
  simpa [extract_base64_images] using this

/-- Counterexample to claim C4 as stated: on a document whose single match
has an undecodable payload, the reported count is `1` while the number of
successful extractions is `0`. -/
theorem extract_count_not_successes :
    (extract_base64_images "data:image/png;base64,A".data "images".data).2.imageCount ≠
      (extract_base64_images "data:image/png;base64,A".data "images".data).2.files.length := by
  have h : matchAt "data:image/png;base64,A".data =
      some ⟨"png".data, "A".data, []⟩ := by decide
  have hb : b64decode "A".data = none := by decide
  rw [extract_base64_images, scanSub_pos _ h]
  simp only [replace_base64, hb]
  rw [scanSub_nil]
  simp

/-! ### Matching a shaped document -/

theorem matchAt_of_shape {r : List Char} (hr : r ∈ subtypeList) {B rest : List Char}
    (hne : B ≠ []) (hall : ∀ c ∈ B, isB64 c = true)
    (hstop : ∀ c, rest.head? = some c → isB64 c = false) :
    matchAt ("data:image/".data ++ r ++ ";base64,".data ++ B ++ rest) =
      some ⟨r, B, rest⟩ := by
  have htw := takeWhile_append_of_all (p := isB64) hall hstop
  have hpe : (B ++ rest).takeWhile isB64 = B := htw.1
  have hde : (B ++ rest).dropWhile isB64 = rest := htw.2
  simp only [subtypeList, List.mem_cons, List.mem_singleton,
    List.not_mem_nil, or_false] at hr
  rcases hr with rfl | rfl | rfl | rfl | rfl | rfl <;>
    simp [matchAt, dropLit_of_append, tryAlts, tryAlt, dropLit, subtypeList,
      hpe, hde, List.isEmpty_iff, hne]

/-- Claim C2: on a document that is exactly `data:image/png;base64,B` for
a payload `B` that decodes to the bytes `X`, the run writes the single file
`images/image_0001.png` with contents exactly `X` and replaces the span
with `./images/image_0001.png`. -/
theorem extract_roundtrip (B : List Char) (X : List Byte)
    (hne : B ≠ []) (hall : ∀ c ∈ B, isB64 c = true)
    (hdec : b64decode B = some X) :
    extract_base64_images ("data:image/png;base64,".data ++ B) "images".data =
      ("./images/image_0001.png".data,
       ⟨1, [("images/image_0001.png".data, X)], 0⟩) := by
  have hm : matchAt ("data:image/png;base64,".data ++ B) =
      some ⟨"png".data, B, []⟩ := by
    have h0 := @matchAt_of_shape "png".data (by decide) B [] hne hall (by simp)
    rw [List.append_nil] at h0
    exact h0
  rw [extract_base64_images, scanSub_pos _ hm]
  simp only [replace_base64, hdec]
  rw [scanSub_nil]
  have h2 : ospJoin "images".data (mkFilename (0 + 1) (extensionOf "png".data)) =
      "images/image_0001.png".data := by decide
  have h1 : ("./".data ++ "images".data ++
      '/' :: mkFilename (0 + 1) (extensionOf "png".data)) =
      "./images/image_0001.png".data := by decide
  simp only [List.append_nil]
  rw [h2, h1]
  rfl

/-- Witness for C2: the payload `AAAA` decodes to three zero bytes. -/
theorem extract_roundtrip_witness :
    extract_base64_images ("data:image/png;base64,".data ++ "AAAA".data)
        "images".data =
      ("./images/image_0001.png".data,
       ⟨1, [("images/image_0001.png".data, [0, 0, 0])], 0⟩) :=
  extract_roundtrip "AAAA".data [0, 0, 0] (by decide) (by decide) (by decide)

/-- If a list's head is a known character that is not a payload character,
every character its head can be fails `isB64`. -/
theorem stop_of_head {c0 : Char} {ys : List Char} (h0 : ys.head? = some c0)
    (hc0 : isB64 c0 = false) :
    ∀ c, ys.head? = some c → isB64 c = false := by
  intro c hc
  rw [h0] at hc
  cases hc
  exact hc0

/-- Claim C3: a match whose payload fails to decode is left verbatim in the
output (the callback returns `match.group(0)`), writes no file, counts one
failure diagnostic, still consumes the sequence counter (it increments
before the decode attempt), and scanning continues with the text after the
match. -/
theorem failed_decode_preserved (output_dir s : List Char) (st : ExtractState)
    (mi : MatchInfo) (h : matchAt s = some mi)
    (hf : b64decode mi.payload = none) :
    scanSub output_dir s st =
      (matchText mi ++
         (scanSub output_dir mi.rest
           ⟨st.imageCount + 1, st.files, st.failCount + 1⟩).1,
       (scanSub output_dir mi.rest
         ⟨st.imageCount + 1, st.files, st.failCount + 1⟩).2) := by
  rw [scanSub_pos output_dir h]
  simp only [replace_base64, hf, matchText]

/-- Witness for C3: a single match with the undecodable payload `A` is kept
verbatim, no file is logged, one failure is counted and the counter is 1. -/
theorem failed_decode_preserved_witness :
    scanSub "images".data "data:image/png;base64,A".data ⟨0, [], 0⟩ =
      ("data:image/png;base64,A".data, ⟨1, [], 1⟩) := by
  have h := failed_decode_preserved "images".data "data:image/png;base64,A".data
    ⟨0, [], 0⟩ ⟨"png".data, "A".data, []⟩ (by decide) (by decide)
  rw [h, scanSub_nil]
  rfl

/-- Three valid matches, with subtypes `png`, `jpeg` and `svg+xml` in this
order, produce exactly the files `image_0001.png`, `image_0002.jpeg` and
`image_0003.svg` — sequence numbers assigned 1, 2, 3 in left-to-right scan
order, extensions derived from each match's declared subtype — and the
rewritten document references them in the same order. -/
theorem extract_three_valid_matches (B1 B2 B3 : List Char) (X1 X2 X3 : List Byte)
    (hne1 : B1 ≠ []) (hall1 : ∀ c ∈ B1, isB64 c = true)
    (hdec1 : b64decode B1 = some X1)
    (hne2 : B2 ≠ []) (hall2 : ∀ c ∈ B2, isB64 c = true)
    (hdec2 : b64decode B2 = some X2)
    (hne3 : B3 ≠ []) (hall3 : ∀ c ∈ B3, isB64 c = true)
    (hdec3 : b64decode B3 = some X3) :
    extract_base64_images
        ("data:image/png;base64,".data ++ (B1 ++
          (" data:image/jpeg;base64,".data ++ (B2 ++
            (" data:image/svg+xml;base64,".data ++ B3))))) "images".data =
      ("./images/image_0001.png ./images/image_0002.jpeg ./images/image_0003.svg".data,
       ⟨3, [("images/image_0001.png".data, X1),
            ("images/image_0002.jpeg".data, X2),
            ("images/image_0003.svg".data, X3)], 0⟩) := by
  have hm3 : matchAt ("data:image/svg+xml;base64,".data ++ B3) =
      some ⟨"svg+xml".data, B3, []⟩ := by
    have h0 := @matchAt_of_shape "svg+xml".data (by decide) B3 [] hne3 hall3 (by simp)
    rw [List.append_nil] at h0
    exact h0
  have hm2 : matchAt ("data:image/jpeg;base64,".data ++
      (B2 ++ (" data:image/svg+xml;base64,".data ++ B3))) =
      some ⟨"jpeg".data, B2, " data:image/svg+xml;base64,".data ++ B3⟩ :=
    matchAt_of_shape (r := "jpeg".data) (by decide) hne2 hall2
      (stop_of_head rfl (by decide))
  have hm1 : matchAt ("data:image/png;base64,".data ++ (B1 ++
      (" data:image/jpeg;base64,".data ++ (B2 ++
        (" data:image/svg+xml;base64,".data ++ B3))))) =
      some ⟨"png".data, B1,
        " data:image/jpeg;base64,".data ++ (B2 ++
          (" data:image/svg+xml;base64,".data ++ B3))⟩ :=
    matchAt_of_shape (r := "png".data) (by decide) hne1 hall1
      (stop_of_head rfl (by decide))
  rw [extract_base64_images, scanSub_pos _ hm1]
  simp only [replace_base64, hdec1]
  rw [show (" data:image/jpeg;base64,".data ++ (B2 ++
        (" data:image/svg+xml;base64,".data ++ B3))) =
      ' ' :: ("data:image/jpeg;base64,".data ++ (B2 ++
        (" data:image/svg+xml;base64,".data ++ B3))) from rfl]
  rw [scanSub_neg _ (by rfl), scanSub_pos _ hm2]
  simp only [replace_base64, hdec2]
  rw [show (" data:image/svg+xml;base64,".data ++ B3) =
      ' ' :: ("data:image/svg+xml;base64,".data ++ B3) from rfl]
  rw [scanSub_neg _ (by rfl), scanSub_pos _ hm3]
  simp only [replace_base64, hdec3]
  rw [scanSub_nil]
  rfl

/-- The three-match document at the payloads `AAAA`, `QQ==` and `UlJS`. -/
theorem extract_three_valid_matches_example :
    extract_base64_images
        ("data:image/png;base64,".data ++ ("AAAA".data ++
          (" data:image/jpeg;base64,".data ++ ("QQ==".data ++
            (" data:image/svg+xml;base64,".data ++ "UlJS".data)))))
        "images".data =
      ("./images/image_0001.png ./images/image_0002.jpeg ./images/image_0003.svg".data,
       ⟨3, [("images/image_0001.png".data, [0, 0, 0]),
            ("images/image_0002.jpeg".data, [65]),
            ("images/image_0003.svg".data, [82, 82, 82])], 0⟩) :=
  extract_three_valid_matches "AAAA".data "QQ==".data "UlJS".data [0, 0, 0] [65] [82, 82, 82]
    (by decide) (by decide) (by decide) (by decide) (by decide) (by decide)
    (by decide) (by decide) (by decide)

/-! ### Injectivity of the generated filenames -/

theorem digitVal_digitChar {m : Nat} (h : m < 10) :
    digitVal (digitChar m) = m := by
  match m with
  | 0 | 1 | 2 | 3 | 4 | 5 | 6 | 7 | 8 | 9 => decide
  | m + 10 => omega

theorem digitChar_ne_dot (m : Nat) : digitChar m ≠ '.' := by
  match m with
  | 0 | 1 | 2 | 3 | 4 | 5 | 6 | 7 | 8 | 9 => decide
  | m + 10 =>
    show ('*' : Char) ≠ '.'
    decide

theorem digitsVal_append_singleton (xs : List Char) (c : Char) :
    digitsVal (xs ++ [c]) = digitsVal xs * 10 + digitVal c := by
  simp [digitsVal, List.foldl_append]

theorem digitsVal_natDigitsAux :
    ∀ (fuel n : Nat), n < 10 ^ fuel → digitsVal (natDigitsAux fuel n) = n := by
  intro fuel
  induction fuel with
  | zero =>
    intro n hn
    interval_cases n
    rfl
  | succ f ih =>
    intro n hn
    by_cases h10 : n < 10
    · simp [natDigitsAux, h10, digitsVal, digitVal_digitChar h10]
    · have hdiv : n / 10 < 10 ^ f := by
        rw [Nat.div_lt_iff_lt_mul (by omega)]
        calc n < 10 ^ (f + 1) := hn
        _ = 10 ^ f * 10 := by rw [pow_succ]
      simp only [natDigitsAux, if_neg h10, digitsVal_append_singleton,
        ih (n / 10) hdiv, digitVal_digitChar (Nat.mod_lt n (by omega))]
      omega

theorem lt_ten_pow_succ (n : Nat) : n < 10 ^ (n + 1) := by
  induction n with
  | zero => decide
  | succ m ih =>
    have h : 10 ^ (m + 1) * 10 = 10 ^ (m + 2) := (pow_succ 10 (m + 1)).symm
    omega

theorem digitsVal_natDigits (n : Nat) : digitsVal (natDigits n) = n :=
  digitsVal_natDigitsAux (n + 1) n (lt_ten_pow_succ n)

theorem digitsVal_replicate_zero_append (k : Nat) (ds : List Char) :
    digitsVal (List.replicate k '0' ++ ds) = digitsVal ds := by
  induction k with
  | zero => rfl
  | succ m ih =>
    have : List.replicate (m + 1) '0' ++ ds = '0' :: (List.replicate m '0' ++ ds) := by
      simp [List.replicate_succ]
    rw [this]
    simpa [digitsVal, digitVal] using ih

theorem digitsVal_pad4 (n : Nat) : digitsVal (pad4 n) = n := by
  rw [pad4, digitsVal_replicate_zero_append, digitsVal_natDigits]

theorem pad4_injective {a b : Nat} (h : pad4 a = pad4 b) : a = b := by
  have := digitsVal_pad4 a
  rw [h, digitsVal_pad4] at this
  omega

theorem natDigitsAux_not_mem_dot :
    ∀ (fuel n : Nat), '.' ∉ natDigitsAux fuel n := by
  intro fuel
  induction fuel with
  | zero => intro n; simp [natDigitsAux]
  | succ f ih =>
    intro n
    by_cases h10 : n < 10
    · simp [natDigitsAux, h10]
      exact (digitChar_ne_dot n).symm
    · simp [natDigitsAux, h10]
      refine ⟨fun hmem => ih (n / 10) hmem, ?_⟩
      exact (digitChar_ne_dot (n % 10)).symm

theorem pad4_not_mem_dot (n : Nat) : '.' ∉ pad4 n := by
  rw [pad4]
  simp only [List.mem_append, List.mem_replicate]
  rintro (⟨-, h⟩ | h)
  · exact absurd h (by decide)
  · exact natDigitsAux_not_mem_dot (n + 1) n h

theorem append_cons_inj {ch : Char} :
    ∀ {xs ys a b : List Char}, ch ∉ xs → ch ∉ ys →
      xs ++ ch :: a = ys ++ ch :: b → xs = ys ∧ a = b := by
  intro xs
  induction xs with
  | nil =>
    intro ys a b _ hy h
    cases ys with
    | nil => simpa using h
    | cons y ys' =>
      simp only [List.nil_append, List.cons_append, List.cons.injEq] at h
      exact absurd (by simp [h.1]) hy
  | cons x xs' ih =>
    intro ys a b hx hy h
    cases ys with
    | nil =>
      simp only [List.nil_append, List.cons_append, List.cons.injEq] at h
      exact absurd (by simp [← h.1]) hx
    | cons y ys' =>
      simp only [List.cons_append, List.cons.injEq] at h
      obtain ⟨rfl, h2⟩ := h
      obtain ⟨rfl, rfl⟩ := ih (fun hm => hx (by simp [hm]))
        (fun hm => hy (by simp [hm])) h2
      exact ⟨rfl, rfl⟩

theorem mkFilename_inj {n1 n2 : Nat} {e1 e2 : List Char}
    (h : mkFilename n1 e1 = mkFilename n2 e2) : n1 = n2 := by
  have h0 : "image_".data ++ (pad4 n1 ++ '.' :: e1) =
      "image_".data ++ (pad4 n2 ++ '.' :: e2) := h
  have h' : pad4 n1 ++ '.' :: e1 = pad4 n2 ++ '.' :: e2 :=
    List.append_cancel_left h0
  obtain ⟨hp, -⟩ :=
    append_cons_inj (pad4_not_mem_dot n1) (pad4_not_mem_dot n2) h'
  exact pad4_injective hp

theorem ospJoin_cancel {dir b1 b2 : List Char}
    (h1 : b1.head? ≠ some '/') (h2 : b2.head? ≠ some '/')
    (h : ospJoin dir b1 = ospJoin dir b2) : b1 = b2 := by
  rw [ospJoin, if_neg h1, ospJoin, if_neg h2] at h
  by_cases hd : dir = [] ∨ dir.getLast? = some '/'
  · rw [if_pos hd, if_pos hd] at h
    exact List.append_cancel_left h
  · rw [if_neg hd, if_neg hd] at h
    have := List.append_cancel_left h
    simpa using this

theorem mkFilename_head (n : Nat) (e : List Char) :
    (mkFilename n e).head? = some 'i' := rfl

theorem ospJoin_mkFilename_inj {dir : List Char} {n1 n2 : Nat} {e1 e2 : List Char}
    (h : ospJoin dir (mkFilename n1 e1) = ospJoin dir (mkFilename n2 e2)) :
    n1 = n2 :=
  mkFilename_inj (ospJoin_cancel
    (by rw [mkFilename_head]; decide) (by rw [mkFilename_head]; decide) h)

/-! ### Distinctness of the output paths in one run -/

theorem scanSub_files_spec (output_dir : List Char) :
    ∀ (n : Nat) (s : List Char) (st : ExtractState), s.length ≤ n →
      (∀ f ∈ st.files, ∃ k e, 1 ≤ k ∧ k ≤ st.imageCount ∧
          f.1 = ospJoin output_dir (mkFilename k e)) →
      List.Pairwise (fun f g => f.1 ≠ g.1) st.files →
      (∀ f ∈ (scanSub output_dir s st).2.files, ∃ k e, 1 ≤ k ∧
          k ≤ (scanSub output_dir s st).2.imageCount ∧
          f.1 = ospJoin output_dir (mkFilename k e)) ∧
        List.Pairwise (fun f g => f.1 ≠ g.1) (scanSub output_dir s st).2.files := by
  intro n
  induction n with
  | zero =>
    intro s st hlen hinv hpw
    obtain rfl : s = [] := List.length_eq_zero.mp (Nat.le_zero.mp hlen)
    rw [scanSub_nil]
    exact ⟨hinv, hpw⟩
  | succ m ih =>
    intro s st hlen hinv hpw
    cases h : matchAt s with
    | some mi =>
      rw [scanSub_pos output_dir h]
      have hlt := matchAt_rest_length h
      cases hd : b64decode mi.payload with
      | some bs =>
        have hinv' : ∀ f ∈ (replace_base64 output_dir mi.sub mi.payload st).2.files,
            ∃ k e, 1 ≤ k ∧
              k ≤ (replace_base64 output_dir mi.sub mi.payload st).2.imageCount ∧
              f.1 = ospJoin output_dir (mkFilename k e) := by
          simp only [replace_base64, hd]
          intro f hf
          rw [List.mem_append] at hf
          rcases hf with hf | hf
          · obtain ⟨k, e, hk1, hk2, he⟩ := hinv f hf
            exact ⟨k, e, hk1, by omega, he⟩
          · rw [List.mem_singleton] at hf
            subst hf
            exact ⟨st.imageCount + 1, extensionOf mi.sub, by omega, le_refl _, rfl⟩
        have hpw' : List.Pairwise (fun f g => f.1 ≠ g.1)
            (replace_base64 output_dir mi.sub mi.payload st).2.files := by
          simp only [replace_base64, hd]
          rw [List.pairwise_append]
          refine ⟨hpw, List.pairwise_singleton _ _, ?_⟩
          intro f hf g hg
          rw [List.mem_singleton] at hg
          subst hg
          obtain ⟨k, e, hk1, hk2, he⟩ := hinv f hf
          intro hfg
          rw [he] at hfg
          have := ospJoin_mkFilename_inj hfg
          omega
        exact ih mi.rest (replace_base64 output_dir mi.sub mi.payload st).2
          (by omega) hinv' hpw'
      | none =>
        have hinv' : ∀ f ∈ (replace_base64 output_dir mi.sub mi.payload st).2.files,
            ∃ k e, 1 ≤ k ∧
              k ≤ (replace_base64 output_dir mi.sub mi.payload st).2.imageCount ∧
              f.1 = ospJoin output_dir (mkFilename k e) := by
          simp only [replace_base64, hd]
          intro f hf
          obtain ⟨k, e, hk1, hk2, he⟩ := hinv f hf
          exact ⟨k, e, hk1, by omega, he⟩
        have hpw' : List.Pairwise (fun f g => f.1 ≠ g.1)
            (replace_base64 output_dir mi.sub mi.payload st).2.files := by
          simp only [replace_base64, hd]
          exact hpw
        exact ih mi.rest (replace_base64 output_dir mi.sub mi.payload st).2
          (by omega) hinv' hpw'
    | none =>
      cases s with
      | nil =>
        rw [scanSub_nil]
        exact ⟨hinv, hpw⟩
      | cons c cs =>
        rw [scanSub_neg output_dir h]
        exact ih cs st (by simpa using Nat.le_of_succ_le_succ hlen) hinv hpw

/-- Claim C7: within one run the output paths of all extracted images are
pairwise distinct, whatever the document and output directory — the
monotonically increasing sequence number embedded in each filename makes
every logged path unique. -/
theorem extract_paths_distinct (html_content output_dir : List Char) :
    List.Pairwise (fun f g => f.1 ≠ g.1)
      (extract_base64_images html_content output_dir).2.files := by
  have := scanSub_files_spec output_dir html_content.length html_content
    ⟨0, [], 0⟩ (Nat.le_refl _) (by simp) (by simp)
  exact this.2

/-! ### The frame property: the pass only rewrites decoded match spans -/

theorem scanSub_frame (output_dir : List Char) :
    ∀ (n : Nat) (s : List Char) (st : ExtractState), s.length ≤ n →
      ∃ ps : List Piece,
        s = (ps.map Piece.orig).flatten ∧
        (scanSub output_dir s st).1 = (ps.map Piece.out).flatten ∧
        ∀ p ∈ ps, ∀ o r, p = Piece.swap o r →
          ∃ mi : MatchInfo, o = matchText mi ∧ (b64decode mi.payload).isSome := by
  intro n
  induction n with
  | zero =>
    intro s st hlen
    obtain rfl : s = [] := List.length_eq_zero.mp (Nat.le_zero.mp hlen)
    rw [scanSub_nil]
    exact ⟨[], by simp, by simp, by simp⟩
  | succ m ih =>
    intro s st hlen
    cases h : matchAt s with
    | some mi =>
      have hs := (matchAt_some_spec h).2.1
      have hlt := matchAt_rest_length h
      obtain ⟨ps, ho, hr, hsw⟩ := ih mi.rest
        (replace_base64 output_dir mi.sub mi.payload st).2 (by omega)
      rw [scanSub_pos output_dir h]
      cases hd : b64decode mi.payload with
      | some bs =>
        refine ⟨Piece.swap (matchText mi)
          (replace_base64 output_dir mi.sub mi.payload st).1 :: ps, ?_, ?_, ?_⟩
        · simpa [Piece.orig] using hs.trans (by rw [ho])
        · simp [Piece.out, hr]
        · intro p hp o r hpo
          rcases List.mem_cons.mp hp with rfl | hp'
          · cases hpo
            exact ⟨mi, rfl, by simp [hd]⟩
          · exact hsw p hp' o r hpo
      | none =>
        refine ⟨Piece.keep (matchText mi) :: ps, ?_, ?_, ?_⟩
        · simpa [Piece.orig] using hs.trans (by rw [ho])
        · have hrep : (replace_base64 output_dir mi.sub mi.payload st).1 =
            matchText mi := by
            simp [replace_base64, hd, matchText]
          simp [Piece.out, hr, hrep]
        · intro p hp o r hpo
          rcases List.mem_cons.mp hp with rfl | hp'
          · cases hpo
          · exact hsw p hp' o r hpo
    | none =>
      cases s with
      | nil =>
        rw [scanSub_nil]
        exact ⟨[], by simp, by simp, by simp⟩
      | cons c cs =>
        obtain ⟨ps, ho, hr, hsw⟩ := ih cs st
          (by simpa using Nat.le_of_succ_le_succ hlen)
        rw [scanSub_neg output_dir h]
        refine ⟨Piece.keep [c] :: ps, ?_, ?_, ?_⟩
        · simp [Piece.orig, ← ho]
        · simp [Piece.out, hr]
        · intro p hp o r hpo
          rcases List.mem_cons.mp hp with rfl | hp'
          · cases hpo
          · exact hsw p hp' o r hpo

/-- Claim C1: the returned text differs from the input only inside match
spans whose payload decoded successfully: the document splits into a list
of pieces, identical for input and output except that each `swap` piece —
and those are exactly the successfully decoded match spans — is replaced;
every `keep` piece (unmatched text and failed-match spans) is preserved
byte-for-byte, and the relative order and count of the pieces is the same
on both sides. -/
theorem extract_frame (html_content output_dir : List Char) :
    ∃ ps : List Piece,
      html_content = (ps.map Piece.orig).flatten ∧
      (extract_base64_images html_content output_dir).1 = (ps.map Piece.out).flatten ∧
      ∀ p ∈ ps, ∀ o r, p = Piece.swap o r →
        ∃ mi : MatchInfo, o = matchText mi ∧ (b64decode mi.payload).isSome :=
  scanSub_frame output_dir html_content.length html_content ⟨0, [], 0⟩
    (Nat.le_refl _)

/-! ### Unrecognized subtypes and empty payloads never match -/

theorem semi_not_mem_subtypes : ∀ x ∈ subtypeList, ';' ∉ x := by decide

theorem matchAt_append (x : List Char) :
    matchAt ("data:image/".data ++ x) = tryAlts subtypeList x := by
  have h0 := dropLit_of_append "data:image/".data x
  unfold matchAt
  rw [h0]

/-- Claim C9: a data-URI whose declared subtype (the text between
`data:image/` and the following `;`) is not in the recognized set is not
matched at that position, whatever follows the semicolon; and on the
concrete document `data:image/bmp;base64,AAAA` the run returns the text
verbatim, writes no file and consumes no sequence number. -/
theorem unrecognized_subtype_untouched (t u : List Char)
    (h1 : ';' ∉ t) (h2 : t ∉ subtypeList) :
    matchAt ("data:image/".data ++ t ++ ';' :: u) = none ∧
    extract_base64_images "data:image/bmp;base64,AAAA".data "images".data =
      ("data:image/bmp;base64,AAAA".data, ⟨0, [], 0⟩) := by
  constructor
  · rw [List.append_assoc, matchAt_append, tryAlts_eq_none_iff]
    intro r hr
    cases htry : tryAlt r (t ++ ';' :: u) with
    | none => rfl
    | some mi =>
      exfalso
      obtain ⟨-, heq, -, -, -⟩ := tryAlt_some_spec htry
      simp only [List.append_assoc] at heq
      have heq' : t ++ ';' :: u =
          r ++ ';' :: ("base64,".data ++ (mi.payload ++ mi.rest)) := heq
      obtain ⟨rfl, -⟩ := append_cons_inj h1 (semi_not_mem_subtypes r hr) heq'
      exact h2 hr
  · rw [extract_base64_images]
    exact scanSub_of_no_match "images".data _ ⟨0, [], 0⟩ (by decide)

/-- Witness for C9 at the subtype `bmp`. -/
theorem unrecognized_subtype_untouched_witness :
    matchAt ("data:image/".data ++ "bmp".data ++ ';' :: "base64,AAAA".data) = none ∧
    extract_base64_images "data:image/bmp;base64,AAAA".data "images".data =
      ("data:image/bmp;base64,AAAA".data, ⟨0, [], 0⟩) :=
  unrecognized_subtype_untouched "bmp".data "base64,AAAA".data
    (by decide) (by decide)

/-- Claim C10: a recognized data-URI prefix whose payload would be empty —
`data:image/<subtype>;base64,` followed by end of text or by a character
outside `[A-Za-z0-9+/=]` — is not matched (the payload group requires at
least one character); and on the concrete document `data:image/png;base64,`
the run returns the text verbatim, writes no file and leaves the counter
at zero. -/
theorem empty_payload_no_match (r rest : List Char) (hr : r ∈ subtypeList)
    (hstop : ∀ c, rest.head? = some c → isB64 c = false) :
    matchAt ("data:image/".data ++ r ++ ";base64,".data ++ rest) = none ∧
    extract_base64_images "data:image/png;base64,".data "images".data =
      ("data:image/png;base64,".data, ⟨0, [], 0⟩) := by
  constructor
  · rw [show "data:image/".data ++ r ++ ";base64,".data ++ rest =
        "data:image/".data ++ (r ++ (";base64,".data ++ rest)) by
      simp only [List.append_assoc]]
    rw [matchAt_append, tryAlts_eq_none_iff]
    intro r' hr'
    cases htry : tryAlt r' (r ++ (";base64,".data ++ rest)) with
    | none => rfl
    | some mi =>
      exfalso
      obtain ⟨-, heq, hne, hall, -⟩ := tryAlt_some_spec htry
      simp only [List.append_assoc] at heq
      have heq' : r ++ ';' :: ("base64,".data ++ rest) =
          r' ++ ';' :: ("base64,".data ++ (mi.payload ++ mi.rest)) := heq
      obtain ⟨rfl, htail⟩ := append_cons_inj (semi_not_mem_subtypes r hr)
        (semi_not_mem_subtypes r' hr') heq'
      have hrest : rest = mi.payload ++ mi.rest := List.append_cancel_left htail
      cases hpay : mi.payload with
      | nil => exact hne hpay
      | cons c pay' =>
        have hhead : rest.head? = some c := by rw [hrest, hpay]; rfl
        have hc : isB64 c = true := hall c (by rw [hpay]; simp)
        rw [hstop c hhead] at hc
        exact Bool.noConfusion hc
  · rw [extract_base64_images]
    exact scanSub_of_no_match "images".data _ ⟨0, [], 0⟩ (by decide)

/-- Witness for C10 at subtype `png` with the payload position ending the
text. -/
theorem empty_payload_no_match_witness :
    matchAt ("data:image/".data ++ "png".data ++ ";base64,".data ++ []) = none ∧
    extract_base64_images "data:image/png;base64,".data "images".data =
      ("data:image/png;base64,".data, ⟨0, [], 0⟩) :=
  empty_payload_no_match "png".data [] (by decide) (by simp)

/-! ### The default output filename of `process_html_file` -/

theorem splitSlash_no_slash :
    ∀ (p : List Char), ∀ g ∈ splitSlash p, '/' ∉ g := by
  intro p
  induction p with
  | nil =>
    intro g hg
    simp [splitSlash] at hg
    simp [hg]
  | cons c cs ih =>
    intro g hg
    by_cases hc : c = '/'
    · subst hc
      simp only [splitSlash, if_pos rfl] at hg
      rcases List.mem_cons.mp hg with rfl | hg'
      · simp
      · exact ih g hg'
    · simp only [splitSlash, if_neg hc] at hg
      cases hss : splitSlash cs with
      | nil =>
        rw [hss] at hg
        rcases List.mem_cons.mp hg with rfl | hg'
        · simp [Ne.symm hc]
        · simp at hg'
      | cons g0 gs =>
        rw [hss] at hg
        rcases List.mem_cons.mp hg with rfl | hg'
        · intro hmem
          rcases List.mem_cons.mp hmem with h' | h'
          · exact hc h'.symm
          · exact ih g0 (by rw [hss]; simp) h'
        · exact ih g (by rw [hss]; simp [hg'])

theorem slash_not_mem_pathName (p : List Char) : '/' ∉ pathName p := by
  rw [pathName]
  cases hl : (pathParts p).getLast? with
  | none => simp
  | some g =>
    have hg : g ∈ pathParts p := List.mem_of_mem_getLast? hl
    have : g ∈ splitSlash p := List.mem_of_mem_filter hg
    simpa using splitSlash_no_slash p g this

theorem slash_not_mem_pathStem (p : List Char) : '/' ∉ pathStem p := by
  cases hl : lastDotIdx (pathName p) with
  | none =>
    simp only [pathStem, hl]
    exact slash_not_mem_pathName p
  | some i =>
    simp only [pathStem, hl]
    split
    · intro hmem
      exact slash_not_mem_pathName p (List.mem_of_mem_take hmem)
    · exact slash_not_mem_pathName p

theorem slash_not_mem_pathSuffix (p : List Char) : '/' ∉ pathSuffix p := by
  cases hl : lastDotIdx (pathName p) with
  | none =>
    simp only [pathSuffix, hl]
    simp
  | some i =>
    simp only [pathSuffix, hl]
    split
    · intro hmem
      exact slash_not_mem_pathName p (List.mem_of_mem_drop hmem)
    · simp

/-- Counterexample to claim C8: for the input `sub/page.html` the computed
default output filename is the bare `page_optimized.html` — `Path.stem`
drops the input's directory — not `sub/page_optimized.html` inside the
input's directory. -/
theorem default_output_drops_directory :
    default_output_file "sub/page.html".data = "page_optimized.html".data ∧
    default_output_file "sub/page.html".data ≠ "sub/page_optimized.html".data := by
  constructor
  · decide
  · decide

/-- Amendment of claim C8: when no output file is supplied the output name
is the input's final name component with `_optimized` inserted between stem
and extension (`stem ++ suffix` reassembles exactly the name component),
and it never contains a directory separator: it is resolved relative to
the current working directory, which coincides with the input's directory
only when the input path has no directory part. -/
theorem default_output_in_cwd (input_file : List Char) :
    default_output_file input_file =
      pathStem input_file ++ "_optimized".data ++ pathSuffix input_file ∧
    pathStem input_file ++ pathSuffix input_file = pathName input_file ∧
    '/' ∉ default_output_file input_file := by
  refine ⟨rfl, ?_, ?_⟩
  · cases hl : lastDotIdx (pathName input_file) with
    | none => simp [pathStem, pathSuffix, hl]
    | some i =>
      simp only [pathStem, pathSuffix, hl]
      split
      · exact List.take_append_drop i (pathName input_file)
      · simp
  · rw [default_output_file]
    intro hmem
    rcases List.mem_append.mp hmem with hmem' | hmem'
    · rcases List.mem_append.mp hmem' with h' | h'
      · exact slash_not_mem_pathStem input_file h'
      · exact absurd h' (by decide)
    · exact slash_not_mem_pathSuffix input_file hmem'

/-! ### The general sequencing of match numbers and files -/

theorem matchLogAux_congr :
    ∀ (f1 f2 : Nat) (s : List Char) (k : Nat), s.length ≤ f1 → s.length ≤ f2 →
      matchLogAux f1 s k = matchLogAux f2 s k := by
  intro f1
  induction f1 with
  | zero =>
    intro f2 s k h1 h2
    obtain rfl : s = [] := List.length_eq_zero.mp (Nat.le_zero.mp h1)
    cases f2 with
    | zero => rfl
    | succ g => rfl
  | succ f ih =>
    intro f2 s k h1 h2
    cases s with
    | nil =>
      cases f2 with
      | zero => rfl
      | succ g => rfl
    | cons c cs =>
      cases f2 with
      | zero => exact absurd h2 (by simp)
      | succ g =>
        cases h : matchAt (c :: cs) with
        | some mi =>
          have hlt := matchAt_rest_length h
          simp only [List.length_cons] at h1 h2 hlt
          simp only [matchLogAux, h]
          rw [ih g mi.rest (k + 1) (by omega) (by omega)]
        | none =>
          simp only [List.length_cons] at h1 h2
          simp only [matchLogAux, h]
          exact ih g cs k (by omega) (by omega)

theorem matchLogAux_numbers :
    ∀ (fuel : Nat) (s : List Char) (k : Nat), s.length ≤ fuel →
      (matchLogAux fuel s k).map Prod.fst =
        List.range' (k + 1) (matchLogAux fuel s k).length := by
  intro fuel
  induction fuel with
  | zero => intro s k _; rfl
  | succ f ih =>
    intro s k hlen
    cases s with
    | nil => rfl
    | cons c cs =>
      cases h : matchAt (c :: cs) with
      | some mi =>
        have hlt := matchAt_rest_length h
        simp only [List.length_cons] at hlen hlt
        simp only [matchLogAux, h]
        have := ih mi.rest (k + 1) (by omega)
        simp only [List.map_cons, List.length_cons, this]
        exact (List.range'_succ (k + 1) _ 1).symm
      | none =>
        simp only [List.length_cons] at hlen
        simp only [matchLogAux, h]
        exact ih cs k (by omega)

/-- How one match contributes to the file log: a decoded payload yields the
file at the path built from the match's number and subtype, a failed one
yields nothing. -/
def fileOfMatch (output_dir : List Char) (m : Nat × List Char × List Char) :
    Option (List Char × List Byte) :=
  match b64decode m.2.2 with
  | some bs => some (ospJoin output_dir (mkFilename m.1 (extensionOf m.2.1)), bs)
  | none => none

theorem scanSub_files_matchLog (output_dir : List Char) :
    ∀ (n : Nat) (s : List Char) (st : ExtractState), s.length ≤ n →
      (scanSub output_dir s st).2.files =
        st.files ++
          (matchLogAux s.length s st.imageCount).filterMap (fileOfMatch output_dir) := by
  intro n
  induction n with
  | zero =>
    intro s st hlen
    obtain rfl : s = [] := List.length_eq_zero.mp (Nat.le_zero.mp hlen)
    rw [scanSub_nil]
    simp [matchLogAux]
  | succ m ih =>
    intro s st hlen
    cases s with
    | nil =>
      rw [scanSub_nil]
      simp [matchLogAux]
    | cons c cs =>
      cases h : matchAt (c :: cs) with
      | some mi =>
        rw [scanSub_pos output_dir h]
        have hlt := matchAt_rest_length h
        simp only [List.length_cons] at hlen hlt
        have hrec := ih mi.rest (replace_base64 output_dir mi.sub mi.payload st).2
          (by omega)
        have hlog : matchLogAux (c :: cs).length (c :: cs) st.imageCount =
            (st.imageCount + 1, mi.sub, mi.payload) ::
              matchLogAux mi.rest.length mi.rest (st.imageCount + 1) := by
          simp only [List.length_cons, matchLogAux, h]
          rw [matchLogAux_congr cs.length mi.rest.length mi.rest _
            (by omega) (Nat.le_refl _)]
        rw [hlog]
        cases hd : b64decode mi.payload with
        | some bs =>
          simp only [replace_base64, hd] at hrec ⊢
          rw [hrec]
          simp only [List.filterMap_cons, fileOfMatch, hd]
          simp [List.append_assoc]
        | none =>
          simp only [replace_base64, hd] at hrec ⊢
          rw [hrec]
          simp only [List.filterMap_cons, fileOfMatch, hd]
      | none =>
        rw [scanSub_neg output_dir h]
        have hrec := ih cs st (by simpa using Nat.le_of_succ_le_succ hlen)
        simp only [List.length_cons, matchLogAux, h]
        exact hrec

/-- Claim C5: in every run the sequence numbers recorded in the match log
are `1, 2, 3, …` in left-to-right scan order, and the files written are
exactly the successfully decoded matches, in that order, each at the path
`image_<number, zero-padded to 4>.<extension of its declared subtype>`
inside the output directory.  In particular a document with three valid
matches produces `image_0001`, `image_0002`, `image_0003` with the
extensions of the three subtypes, in order of appearance. -/
theorem extract_sequencing (html_content output_dir : List Char) :
    (matchLog html_content).map Prod.fst =
      List.range' 1 (matchLog html_content).length ∧
    (extract_base64_images html_content output_dir).2.files =
      (matchLog html_content).filterMap (fileOfMatch output_dir) := by
  constructor
  · exact matchLogAux_numbers html_content.length html_content 0 (Nat.le_refl _)
  · have := scanSub_files_matchLog output_dir html_content.length html_content
      ⟨0, [], 0⟩ (Nat.le_refl _)
    simpa [extract_base64_images, matchLog] using this

end ExtractImages
